import Mathlib

/-!
Verification development for the MOSES value-extraction tool
(src/moses_extractor.py).

The extractor `extract_moses_data` is embedded shallowly:

* a line is processed exactly in the order of the Python loop body
  (header detection, draft banner with `continue`, draft data line,
  stability banner with `continue`, Roll, Pitch, Area Ratio);
* Python dictionaries become insertion-ordered association lists
  (`updAssoc` replaces in place, otherwise appends, exactly like a
  `dict` assignment);
* the regular expressions of the source are implemented as direct
  scanners over `List Char`.  Each quantified sub-pattern of the
  source patterns (`\d+`, `\w+`, `\s+`, `[\d.]+`, `[-\d.]+`) is
  followed by a literal or class disjoint from it, so the greedy
  backtracking semantics of `re` coincides with maximal munch, which
  is what the scanners implement.  `re.search` tries every start
  position from the left; `re.findall` restarts after each match;
* numeric values are modelled as exact rationals.  The source never
  computes with the floats, it only stores values produced by
  `float(...)` on strings matched by the digit/dot/minus classes, so
  `pyFloat?` implements exactly the acceptance and value of Python
  `float` on such strings, returning `none` where `float` raises
  `ValueError`;
* a raised exception (`ValueError` during the scan) makes the whole
  extraction return `none`; reading the input file is modelled by an
  environment `fs : String → Option (Option String)` where `none` is
  a missing file and `some none` a file the attempted decoding
  rejects.
-/

set_option maxRecDepth 20000

/-- Python `\s` (ASCII fragment): the whitespace characters stripped by
`str.strip` and matched by `\s` in the source patterns. -/
def pySpace (c : Char) : Bool :=
  c == ' ' || c == '\t' || c == '\n' || c == '\r' || c == '\x0b' || c == '\x0c'

/-- Python `\w` (ASCII fragment): letters, digits and underscore. -/
def pyWord (c : Char) : Bool := c.isAlphanum || c == '_'

/-- The character class `[\d.]` of the draft-value and area-ratio patterns. -/
def numDot (c : Char) : Bool := c.isDigit || c == '.'

/-- The character class `[-\d.]` of the Roll/Pitch patterns. -/
def numDotNeg (c : Char) : Bool := c.isDigit || c == '.' || c == '-'

/-- `str.strip()` on the character list: drop whitespace at both ends. -/
def stripChars (cs : List Char) : List Char :=
  ((cs.dropWhile pySpace).reverse.dropWhile pySpace).reverse

/-- `line.strip()` of the source (line 37). -/
def pyStrip (s : String) : String := String.mk (stripChars s.toList)

/-- Match a literal character sequence at the head; return the rest. -/
def dropLit : List Char → List Char → Option (List Char)
  | [], cs => some cs
  | _ :: _, [] => none
  | p :: ps, c :: cs => if c == p then dropLit ps cs else none

/-- Substring test, scanning every start position (Python `pat in s`). -/
def containsAux (pat : List Char) : List Char → Bool
  | [] => (dropLit pat []).isSome
  | c :: cs => (dropLit pat (c :: cs)).isSome || containsAux pat cs

/-- Python `pat in s` on stripped lines. -/
def containsTok (s pat : String) : Bool := containsAux pat.toList s.toList

/-- `re.search`: try the matcher at every start position, leftmost first. -/
def searchAux {α : Type} (m : List Char → Option α) : List Char → Option α
  | [] => m []
  | c :: cs =>
    match m (c :: cs) with
    | some a => some a
    | none => searchAux m cs

/-- `'aaa'.split('\n')` buffer worker (`acc` holds the current line reversed). -/
def splitLinesAux (acc : List Char) : List Char → List String
  | [] => [String.mk acc.reverse]
  | c :: cs =>
    if c == '\n' then String.mk acc.reverse :: splitLinesAux [] cs
    else splitLinesAux (c :: acc) cs

/-- `content.split('\n')` of the source (line 23). -/
def splitLines (s : String) : List String := splitLinesAux [] s.toList

/-- Numeric value of a digit run. -/
def natOfDigits (cs : List Char) : Nat :=
  cs.foldl (fun n c => 10 * n + (c.toNat - 48)) 0

/-- Python `float` on an unsigned string over the `[\d.]` class: digits with at
most one dot and at least one digit; `none` is a `ValueError`. -/
def parseDecimal (cs : List Char) : Option ℚ :=
  let ip := cs.takeWhile Char.isDigit
  let r1 := cs.dropWhile Char.isDigit
  match r1 with
  | [] => if ip.isEmpty then none else some ((natOfDigits ip : ℚ))
  | '.' :: r2 =>
    let fp := r2.takeWhile Char.isDigit
    let r3 := r2.dropWhile Char.isDigit
    if !r3.isEmpty then none
    else if ip.isEmpty && fp.isEmpty then none
    else some ((natOfDigits ip : ℚ) + (natOfDigits fp : ℚ) / ((10 : ℚ) ^ fp.length))
  | _ => none

/-- Python `float` on a string over the `[-\d.]` class (an optional leading
minus, then an unsigned decimal); `none` models a raised `ValueError`. -/
def pyFloat? (s : String) : Option ℚ :=
  match s.toList with
  | '-' :: rest => (parseDecimal rest).map (fun q => -q)
  | cs => parseDecimal cs

/-- Python `s.isdigit()` (ASCII): non-empty and all digits. -/
def pyIsDigitStr (s : String) : Bool := !s.isEmpty && s.toList.all Char.isDigit

/-- Ordered-dictionary assignment `d[k] = v`: replace in place, else append. -/
def updAssoc {α : Type} (k : String) (v : α) :
    List (String × α) → List (String × α)
  | [] => [(k, v)]
  | (k₁, v₁) :: rest =>
    if k₁ == k then (k, v) :: rest else (k₁, v₁) :: updAssoc k v rest

/-- Dictionary lookup `d[k]` / `k in d`. -/
def lookupAssoc {α : Type} (k : String) : List (String × α) → Option α
  | [] => none
  | (k₁, v₁) :: rest => if k₁ == k then some v₁ else lookupAssoc k rest

/-- Matcher for `Case-(\d+)\s*\(Compartment\s+(\w+)\s+Flooded\)` at one start
position (source line 41); returns group 1. -/
def matchCase1At (cs : List Char) : Option String :=
  match dropLit "Case-".toList cs with
  | none => none
  | some r1 =>
    if (r1.takeWhile Char.isDigit).isEmpty then none else
    match dropLit "(Compartment".toList
        ((r1.dropWhile Char.isDigit).dropWhile pySpace) with
    | none => none
    | some r3 =>
      if (r3.takeWhile pySpace).isEmpty then none else
      if ((r3.dropWhile pySpace).takeWhile pyWord).isEmpty then none else
      if (((r3.dropWhile pySpace).dropWhile pyWord).takeWhile pySpace).isEmpty
        then none else
      match dropLit "Flooded)".toList
          (((r3.dropWhile pySpace).dropWhile pyWord).dropWhile pySpace) with
      | none => none
      | some _ => some (String.mk (r1.takeWhile Char.isDigit))

/-- `re.search(r'Case-(\d+)\s*\(Compartment\s+(\w+)\s+Flooded\)', s)`. -/
def searchCase1 (s : String) : Option String := searchAux matchCase1At s.toList

/-- Matcher for `Damage = (\w+)\s` at one start position (source line 50). -/
def matchDamageAt (cs : List Char) : Option String :=
  match dropLit "Damage = ".toList cs with
  | none => none
  | some r1 =>
    let w := r1.takeWhile pyWord
    let r2 := r1.dropWhile pyWord
    if w.isEmpty then none else
    match r2 with
    | c :: _ => if pySpace c then some (String.mk w) else none
    | [] => none

/-- `re.search(r'Damage = (\w+)\s', s)`. -/
def searchDamage (s : String) : Option String := searchAux matchDamageAt s.toList

/-- `re.search(r'(\d+)', s)` (source line 55): the first digit run. -/
def firstDigitRun : List Char → Option String
  | [] => none
  | c :: cs =>
    if c.isDigit then some (String.mk (c :: cs.takeWhile Char.isDigit))
    else firstDigitRun cs

/-- `re.search(r'(\d+)', s)` on a string. -/
def firstDigitRunStr (s : String) : Option String := firstDigitRun s.toList

/-- The case id the header-detection chain (source lines 40-57) assigns for a
stripped line, `none` when no rule fires and `current_case` stays put.  The
`elif` chain is kept: a line containing the `DAMAGE STABILITY Case-` banner
never reaches the later rules even when its regex fails. -/
def headerMatch (s : String) : Option String :=
  if containsTok s "DAMAGE STABILITY Case-" then searchCase1 s
  else if containsTok s "INTACT TOW CONDITION" then some "Intact"
  else if containsTok s "Damage = NONE" && containsTok s "VCG" then some "Intact"
  else if containsTok s "Damage =" && containsTok s "VCG" then
    match searchDamage s with
    | some d => if d != "NONE!" then firstDigitRunStr d else none
    | none => none
  else none

/-- Effect of the header-detection chain on `current_case`. -/
def headerUpdate (cc : Option String) (s : String) : Option String :=
  match headerMatch s with
  | some c => some c
  | none => cc

/-- A stripped line is a recognized case header when the chain assigns. -/
def headerRecognizes (s : String) : Bool := (headerMatch s).isSome

/-- Matcher for one `(\w+\([PS]\))\s+([\d.]+)` pair (source line 67); returns
both groups and the remaining input after the match. -/
def matchDraftPairAt (cs : List Char) : Option (String × String × List Char) :=
  let w := cs.takeWhile pyWord
  let r1 := cs.dropWhile pyWord
  if w.isEmpty then none else
  match r1 with
  | '(' :: p :: ')' :: r2 =>
    if p == 'P' || p == 'S' then
      let s1 := r2.takeWhile pySpace
      let r3 := r2.dropWhile pySpace
      if s1.isEmpty then none else
      let v := r3.takeWhile numDot
      let r4 := r3.dropWhile numDot
      if v.isEmpty then none else
      some (String.mk (w ++ ('(' :: p :: [')'])), String.mk v, r4)
    else none
  | _ => none

/-- `re.findall` driver: left to right, non-overlapping, restart after each
match; the fuel argument (initially the input length) only bounds recursion,
every match consumes at least one character. -/
def findPairsAux : Nat → List Char → List (String × String)
  | 0, _ => []
  | _ + 1, [] => []
  | n + 1, c :: cs =>
    match matchDraftPairAt (c :: cs) with
    | some (nm, v, rest) => (nm, v) :: findPairsAux n rest
    | none => findPairsAux n cs

/-- `re.findall(r'(\w+\([PS]\))\s+([\d.]+)', s)`. -/
def draftPairs (s : String) : List (String × String) :=
  findPairsAux s.toList.length s.toList

/-- Matcher for `<lit>\s*=\s*([-\d.]+)\s*Deg` at one position
(source lines 89 and 94, with `lit` the literal `Roll` or `Pitch`). -/
def matchAngleAt (lit : List Char) (cs : List Char) : Option String :=
  match dropLit lit cs with
  | none => none
  | some r1 =>
    match r1.dropWhile pySpace with
    | '=' :: r2 =>
      let r3 := r2.dropWhile pySpace
      let v := r3.takeWhile numDotNeg
      let r4 := r3.dropWhile numDotNeg
      if v.isEmpty then none else
      match dropLit "Deg".toList (r4.dropWhile pySpace) with
      | none => none
      | some _ => some (String.mk v)
    | _ => none

/-- `re.search(r'Roll\s*=\s*([-\d.]+)\s*Deg', s)`. -/
def searchRoll (s : String) : Option String :=
  searchAux (matchAngleAt "Roll".toList) s.toList

/-- `re.search(r'Pitch\s*=\s*([-\d.]+)\s*Deg', s)`. -/
def searchPitch (s : String) : Option String :=
  searchAux (matchAngleAt "Pitch".toList) s.toList

/-- Matcher for `Area Ratio\s+>=\s+([\d.]+)\s+([\d.]+)\s+Passes` at one
position (source line 100); returns groups 1 (required) and 2 (actual). -/
def matchAreaAt (cs : List Char) : Option (String × String) :=
  match dropLit "Area Ratio".toList cs with
  | none => none
  | some r1 =>
    let s1 := r1.takeWhile pySpace
    let r2 := r1.dropWhile pySpace
    if s1.isEmpty then none else
    match dropLit ">=".toList r2 with
    | none => none
    | some r3 =>
      let s2 := r3.takeWhile pySpace
      let r4 := r3.dropWhile pySpace
      if s2.isEmpty then none else
      let v1 := r4.takeWhile numDot
      let r5 := r4.dropWhile numDot
      if v1.isEmpty then none else
      let s3 := r5.takeWhile pySpace
      let r6 := r5.dropWhile pySpace
      if s3.isEmpty then none else
      let v2 := r6.takeWhile numDot
      let r7 := r6.dropWhile numDot
      if v2.isEmpty then none else
      let s4 := r7.takeWhile pySpace
      let r8 := r7.dropWhile pySpace
      if s4.isEmpty then none else
      match dropLit "Passes".toList r8 with
      | none => none
      | some _ => some (String.mk v1, String.mk v2)

/-- `re.search(r'Area Ratio\s+>=\s+([\d.]+)\s+([\d.]+)\s+Passes', s)`. -/
def searchArea (s : String) : Option (String × String) :=
  searchAux matchAreaAt s.toList

/-- One entry of the `stability_data` table (source lines 106-111). -/
structure StabEntry where
  heel : ℚ
  trim : ℚ
  area_ratio_actual : ℚ
  area_ratio_required : ℚ
deriving DecidableEq

/-- One record of the result list (source lines 118-126); `caseId` is the
`'case'` key of the Python dictionary (`case` is reserved in Lean). -/
structure CaseRecord where
  caseId : String
  drafts : List (String × ℚ)
  heel : ℚ
  trim : ℚ
  area_ratio_actual : ℚ
  area_ratio_required : ℚ
  remarks : String
deriving DecidableEq

/-- The mutable scan state of `extract_moses_data` (source lines 26-34). -/
structure ScanState where
  stability_data : List (String × StabEntry)
  draft_data : List (String × List (String × ℚ))
  current_case : Option String
  in_stability_summary : Bool
  in_draft_marks : Bool
  temp_heel : Option ℚ
  temp_trim : Option ℚ
  temp_drafts : List (String × ℚ)
deriving DecidableEq

/-- Initial scan state (source lines 26-34). -/
def ScanState.init : ScanState := ⟨[], [], none, false, false, none, none, []⟩

/-- The draft-marks banner of the source (line 60). -/
def draftBannerStr : String := "+++ D R A F T   M A R K   R E A D I N G S +++"

/-- The stability-summary banner of the source (line 80). -/
def stabBannerStr : String := "+++ S T A B I L I T Y   S U M M A R Y +++"

/-- Draft data line handling (source lines 66-77): inside an open draft-marks
section, the line holding both `AFT(P)` and `AFT(S)` contributes every
non-MEAN pair to `temp_drafts` (a malformed value raises, giving `none`),
the snapshot is stored under a truthy `current_case` when non-empty, and the
section closes. -/
def addDraftPairs : List (String × ℚ) → List (String × String) →
    Option (List (String × ℚ))
  | td, [] => some td
  | td, (nm, v) :: rest =>
    if nm == "MEAN(P)" || nm == "MEAN(S)" then addDraftPairs td rest
    else
      match pyFloat? v with
      | none => none
      | some q => addDraftPairs (updAssoc nm q td) rest

/-- The draft data line phase of the loop body (source lines 66-77). -/
def draftPhase (st : ScanState) (s : String) : Option ScanState :=
  if st.in_draft_marks && containsTok s "AFT(P)" && containsTok s "AFT(S)" then
    match addDraftPairs st.temp_drafts (draftPairs s) with
    | none => none
    | some td =>
      let dd :=
        match st.current_case with
        | some c =>
          if !(c == "") && !td.isEmpty then updAssoc c td st.draft_data
          else st.draft_data
        | none => st.draft_data
      some { st with temp_drafts := td, draft_data := dd, in_draft_marks := false }
  else some st

/-- The Roll phase of the loop body (source lines 88-91). -/
def rollPhase (st : ScanState) (s : String) : Option ScanState :=
  if st.in_stability_summary && containsTok s "Roll" && containsTok s "="
      && containsTok s "Deg" then
    match searchRoll s with
    | some v =>
      match pyFloat? v with
      | some q => some { st with temp_heel := some q }
      | none => none
    | none => some st
  else some st

/-- The Pitch phase of the loop body (source lines 93-96). -/
def pitchPhase (st : ScanState) (s : String) : Option ScanState :=
  if st.in_stability_summary && containsTok s "Pitch" && containsTok s "="
      && containsTok s "Deg" then
    match searchPitch s with
    | some v =>
      match pyFloat? v with
      | some q => some { st with temp_trim := some q }
      | none => none
    | none => some st
  else some st

/-- The Area Ratio phase of the loop body (source lines 99-113): on a match,
a stability entry keyed by a truthy `current_case` is stored with the
accumulated heel/trim (zero when never observed) and the section closes. -/
def areaPhase (st : ScanState) (s : String) : Option ScanState :=
  if st.in_stability_summary && containsTok s "Area Ratio"
      && containsTok s "Passes" then
    match searchArea s with
    | some (rv, av) =>
      match pyFloat? rv with
      | none => none
      | some rq =>
        match pyFloat? av with
        | none => none
        | some aq =>
          let sd :=
            match st.current_case with
            | some c =>
              if !(c == "") then
                updAssoc c ⟨st.temp_heel.getD 0, st.temp_trim.getD 0, aq, rq⟩
                  st.stability_data
              else st.stability_data
            | none => st.stability_data
          some { st with stability_data := sd, in_stability_summary := false }
    | none => some st
  else some st

/-- One pass of the loop body of `extract_moses_data` (source lines 36-113),
in source order: strip, header detection, draft banner (`continue`), draft
data line, stability banner (`continue`), Roll, Pitch, Area Ratio. -/
def stepLine (st₀ : ScanState) (line : String) : Option ScanState :=
  let s := pyStrip line
  let st := { st₀ with current_case := headerUpdate st₀.current_case s }
  if containsTok s draftBannerStr then
    some { st with in_draft_marks := true, temp_drafts := [] }
  else
    match draftPhase st s with
    | none => none
    | some st₁ =>
      if containsTok s stabBannerStr then
        some { st₁ with in_stability_summary := true, temp_heel := none,
                        temp_trim := none }
      else
        match rollPhase st₁ s with
        | none => none
        | some st₂ =>
          match pitchPhase st₂ s with
          | none => none
          | some st₃ => areaPhase st₃ s

/-- The whole scan loop (source line 36); `none` is a raised exception. -/
def runLines : ScanState → List String → Option ScanState
  | st, [] => some st
  | st, l :: ls =>
    match stepLine st l with
    | none => none
    | some st₁ => runLines st₁ ls

/-- Key of Python `sorted(..., key=lambda x: (x != 'Intact', int(x) if
x.isdigit() else 0))` (source line 116). -/
def pyIntKey (s : String) : Nat :=
  if pyIsDigitStr s then natOfDigits s.toList else 0

/-- The sort key tuple. -/
def caseKey (c : String) : Bool × Nat := (c != "Intact", pyIntKey c)

/-- Lexicographic order on the key tuples (`False < True` in Python). -/
def keyLE (a b : Bool × Nat) : Bool :=
  (!a.1 && b.1) || (a.1 == b.1 && decide (a.2 ≤ b.2))

/-- Comparison of two case keys by sort key. -/
def caseLE (a b : String) : Bool := keyLE (caseKey a) (caseKey b)

/-- Stable insertion: a new element goes after every element whose key is
less than or equal to its own, reproducing the stable `sorted`. -/
def insertSorted (x : String) : List String → List String
  | [] => [x]
  | y :: ys => if caseLE y x then y :: insertSorted x ys else x :: y :: ys

/-- `sorted(keys, key=...)`: a stable sort by `caseKey`. -/
def sortCases (l : List String) : List String :=
  l.foldl (fun acc x => insertSorted x acc) []

/-- The record built for one joined case (source lines 117-126). -/
def joinFn (st : ScanState) (c : String) : Option CaseRecord :=
  match lookupAssoc c st.draft_data, lookupAssoc c st.stability_data with
  | some dd, some sd =>
    some ⟨c, dd, sd.heel, sd.trim, sd.area_ratio_actual,
          sd.area_ratio_required, "Pass"⟩
  | _, _ => none

/-- The second pass (source lines 115-127): iterate the sorted stability
keys and emit a record only for cases also present in `draft_data`. -/
def joinResults (st : ScanState) : List CaseRecord :=
  (sortCases (st.stability_data.map Prod.fst)).filterMap (joinFn st)

/-- `extract_moses_data` on decoded content (source lines 22-128); `none`
models an exception raised during the scan. -/
def extract_moses_data (content : String) : Option (List CaseRecord) :=
  (runLines ScanState.init (splitLines content)).map joinResults

/-- Failure modes of calling `extract_moses_data` on a path: missing file,
undecodable file, or a `ValueError` during the scan. -/
inductive ExtractError where
  | fileMissing
  | decodeFailed
  | valueError
deriving DecidableEq

/-- `extract_moses_data(file_path)` with the read of source lines 19-20.
The environment `fs` maps a path to `none` (no such file), `some none`
(bytes the attempted decoding rejects) or `some (some content)`. -/
def extract_from_path (fs : String → Option (Option String)) (path : String) :
    Except ExtractError (List CaseRecord) :=
  match fs path with
  | none => .error .fileMissing
  | some none => .error .decodeFailed
  | some (some content) =>
    match runLines ScanState.init (splitLines content) with
    | none => .error .valueError
    | some st => .ok (joinResults st)

/-- Observable outcome of the CLI `main` (source lines 289-324). -/
structure CliResult where
  exitCode : Nat
  reportWritten : Bool
deriving DecidableEq

/-- `main()` (source lines 289-324): usage exit for fewer than two argv
entries; an uncaught exception ends the interpreter with exit code 1 and no
report; otherwise the preview is printed, `create_excel_report` is called
unconditionally and the exit code is 0 — there is no branch on the number
of extracted records. -/
def mainCli (fs : String → Option (Option String)) (argv : List String) :
    CliResult :=
  if argv.length < 2 then ⟨1, false⟩
  else
    match extract_from_path fs (argv.getD 1 "") with
    | .error _ => ⟨1, false⟩
    | .ok _ => ⟨0, true⟩

/-- Modelled from the spec: the *leading digits* of a damage designator, the
words of the case-identification rule "case id = leading digits of the
designator"; `none` when the designator does not start with a digit.  Used
only to compare the spec reading against the code, which takes the first
digit run anywhere in the designator. -/
def specLeadingDigits (s : String) : Option String :=
  match s.toList with
  | [] => none
  | c :: cs =>
    if c.isDigit then some (String.mk (c :: cs.takeWhile Char.isDigit))
    else none

/-- A case id the extractor can emit: the intact sentinel or digits. -/
def ValidCase (c : String) : Prop :=
  c = "Intact" ∨ (c ≠ "" ∧ c.toList.all Char.isDigit = true)

/-! ### Association list lemmas -/

theorem mem_map_fst_updAssoc {α : Type} (k x : String) (v : α)
    (l : List (String × α)) :
    x ∈ (updAssoc k v l).map Prod.fst ↔ x = k ∨ x ∈ l.map Prod.fst := by
  induction l with
  | nil => simp [updAssoc]
  | cons p rest ih =>
    obtain ⟨k₁, v₁⟩ := p
    cases hbe : k₁ == k with
    | true =>
      have hk : k₁ = k := by simpa using hbe
      subst hk
      simp [updAssoc]
    | false =>
      have hk : ¬ k₁ = k := by simpa using hbe
      simp only [updAssoc, hbe, Bool.false_eq_true, if_false, List.map_cons,
        List.mem_cons, ih]
      tauto

theorem nodup_map_fst_updAssoc {α : Type} (k : String) (v : α)
    (l : List (String × α)) (h : (l.map Prod.fst).Nodup) :
    ((updAssoc k v l).map Prod.fst).Nodup := by
  induction l with
  | nil => simp [updAssoc]
  | cons p rest ih =>
    obtain ⟨k₁, v₁⟩ := p
    simp only [List.map_cons, List.nodup_cons] at h
    cases hbe : k₁ == k with
    | true =>
      have hk : k₁ = k := by simpa using hbe
      subst hk
      simp only [updAssoc, BEq.refl, if_true, List.map_cons, List.nodup_cons]
      exact h
    | false =>
      have hk : ¬ k₁ = k := by simpa using hbe
      simp only [updAssoc, hbe, Bool.false_eq_true, if_false, List.map_cons,
        List.nodup_cons]
      refine ⟨fun hmem => ?_, ih h.2⟩
      rcases (mem_map_fst_updAssoc k k₁ v rest).mp hmem with h1 | h1
      · exact hk h1
      · exact h.1 h1

theorem lookupAssoc_isSome_iff {α : Type} (k : String) (l : List (String × α)) :
    (lookupAssoc k l).isSome = true ↔ k ∈ l.map Prod.fst := by
  induction l with
  | nil => simp [lookupAssoc]
  | cons p rest ih =>
    obtain ⟨k₁, v₁⟩ := p
    cases hbe : k₁ == k with
    | true =>
      have hk : k₁ = k := by simpa using hbe
      subst hk
      simp [lookupAssoc]
    | false =>
      have hk : ¬ k₁ = k := by simpa using hbe
      simp [lookupAssoc, hbe, ih, Ne.symm hk]

/-! ### Sort lemmas -/

theorem keyLE_total (a b : Bool × Nat) : keyLE a b = true ∨ keyLE b a = true := by
  obtain ⟨pa, na⟩ := a
  obtain ⟨pb, nb⟩ := b
  cases pa <;> cases pb <;> simp [keyLE] <;> omega

theorem keyLE_trans (a b c : Bool × Nat) (hab : keyLE a b = true)
    (hbc : keyLE b c = true) : keyLE a c = true := by
  obtain ⟨pa, na⟩ := a
  obtain ⟨pb, nb⟩ := b
  obtain ⟨pc, nc⟩ := c
  cases pa <;> cases pb <;> cases pc <;> simp_all [keyLE] <;> omega

theorem caseLE_total (a b : String) : caseLE a b = true ∨ caseLE b a = true :=
  keyLE_total (caseKey a) (caseKey b)

theorem caseLE_trans (a b c : String) (hab : caseLE a b = true)
    (hbc : caseLE b c = true) : caseLE a c = true :=
  keyLE_trans (caseKey a) (caseKey b) (caseKey c) hab hbc

theorem mem_insertSorted (x z : String) (l : List String) :
    z ∈ insertSorted x l ↔ z = x ∨ z ∈ l := by
  induction l with
  | nil => simp [insertSorted]
  | cons y ys ih =>
    cases hle : caseLE y x with
    | true =>
      simp only [insertSorted, hle, if_true, List.mem_cons, ih]
      tauto
    | false =>
      simp only [insertSorted, hle, Bool.false_eq_true, if_false, List.mem_cons]

theorem perm_insertSorted (x : String) (l : List String) :
    List.Perm (insertSorted x l) (x :: l) := by
  induction l with
  | nil => rfl
  | cons y ys ih =>
    cases hle : caseLE y x with
    | true =>
      simp only [insertSorted, hle, if_true]
      exact (ih.cons y).trans (List.Perm.swap x y ys)
    | false =>
      simp [insertSorted, hle]

theorem perm_foldl_insert (l acc : List String) :
    List.Perm (l.foldl (fun a x => insertSorted x a) acc) (acc ++ l) := by
  induction l generalizing acc with
  | nil => simp
  | cons x xs ih =>
    have h1 : List.Perm (xs.foldl (fun a x => insertSorted x a) (insertSorted x acc))
        (insertSorted x acc ++ xs) := ih (insertSorted x acc)
    have h2 : List.Perm (insertSorted x acc ++ xs) ((x :: acc) ++ xs) :=
      (perm_insertSorted x acc).append_right xs
    exact (h1.trans h2).trans List.perm_middle.symm

theorem sortCases_perm (l : List String) : List.Perm (sortCases l) l :=
  (perm_foldl_insert l []).trans (by simp)

theorem pairwise_insertSorted (x : String) (l : List String)
    (h : l.Pairwise (fun a b => caseLE a b = true)) :
    (insertSorted x l).Pairwise (fun a b => caseLE a b = true) := by
  induction l with
  | nil => simp [insertSorted]
  | cons y ys ih =>
    rw [List.pairwise_cons] at h
    cases hle : caseLE y x with
    | true =>
      simp only [insertSorted, hle, if_true, List.pairwise_cons]
      refine ⟨fun z hz => ?_, ih h.2⟩
      rcases (mem_insertSorted x z ys).mp hz with h1 | h1
      · exact h1 ▸ hle
      · exact h.1 z h1
    | false =>
      simp only [insertSorted, hle, Bool.false_eq_true, if_false,
        List.pairwise_cons]
      have hxy : caseLE x y = true := by
        rcases caseLE_total y x with h1 | h1
        · rw [h1] at hle
          exact absurd hle (by simp)
        · exact h1
      refine ⟨fun z hz => ?_, h.1, h.2⟩
      rcases List.mem_cons.mp hz with h1 | h1
      · exact h1 ▸ hxy
      · exact caseLE_trans x y z hxy (h.1 z h1)

theorem pairwise_foldl_insert (l acc : List String)
    (h : acc.Pairwise (fun a b => caseLE a b = true)) :
    (l.foldl (fun a x => insertSorted x a) acc).Pairwise
      (fun a b => caseLE a b = true) := by
  induction l generalizing acc with
  | nil => exact h
  | cons x xs ih => exact ih (insertSorted x acc) (pairwise_insertSorted x acc h)

theorem sortCases_pairwise (l : List String) :
    (sortCases l).Pairwise (fun a b => caseLE a b = true) :=
  pairwise_foldl_insert l [] (by simp)

theorem insertSorted_append (x : String) (l : List String)
    (h : ∀ a ∈ l, caseLE a x = true) : insertSorted x l = l ++ [x] := by
  induction l with
  | nil => rfl
  | cons y ys ih =>
    have hy : caseLE y x = true := h y (by simp)
    simp only [insertSorted, hy, if_true, List.cons_append, List.cons.injEq,
      true_and]
    exact ih (fun a ha => h a (by simp [ha]))

theorem foldl_insert_of_pairwise (l acc : List String)
    (h : (acc ++ l).Pairwise (fun a b => caseLE a b = true)) :
    l.foldl (fun a x => insertSorted x a) acc = acc ++ l := by
  induction l generalizing acc with
  | nil => simp
  | cons x xs ih =>
    rw [List.pairwise_append] at h
    have hacc : ∀ a ∈ acc, caseLE a x = true :=
      fun a ha => h.2.2 a ha x (by simp)
    have hstep : insertSorted x acc = acc ++ [x] := insertSorted_append x acc hacc
    have hnext : ((acc ++ [x]) ++ xs).Pairwise (fun a b => caseLE a b = true) := by
      rw [List.append_assoc]
      rw [List.pairwise_append]
      refine ⟨h.1, (List.pairwise_cons.mpr ⟨fun z hz => ?_, ?_⟩), ?_⟩
      · exact (List.pairwise_cons.mp h.2.1).1 z hz
      · exact (List.pairwise_cons.mp h.2.1).2
      · intro a ha b hb
        exact h.2.2 a ha b hb
    calc (x :: xs).foldl (fun a x => insertSorted x a) acc
        = xs.foldl (fun a x => insertSorted x a) (insertSorted x acc) := rfl
      _ = xs.foldl (fun a x => insertSorted x a) (acc ++ [x]) := by rw [hstep]
      _ = (acc ++ [x]) ++ xs := ih (acc ++ [x]) hnext
      _ = acc ++ x :: xs := by simp

theorem sortCases_eq_of_pairwise (l : List String)
    (h : l.Pairwise (fun a b => caseLE a b = true)) : sortCases l = l := by
  have := foldl_insert_of_pairwise l [] (by simpa)
  simpa [sortCases] using this

/-! ### Join lemmas -/

theorem joinFn_eq_some (st : ScanState) (c : String) (r : CaseRecord)
    (h : joinFn st c = some r) :
    r.caseId = c ∧ r.remarks = "Pass"
      ∧ (lookupAssoc c st.draft_data).isSome = true
      ∧ (lookupAssoc c st.stability_data).isSome = true := by
  unfold joinFn at h
  cases h1 : lookupAssoc c st.draft_data with
  | none => rw [h1] at h; exact absurd h (by simp)
  | some dd =>
    cases h2 : lookupAssoc c st.stability_data with
    | none => rw [h1, h2] at h; exact absurd h (by simp)
    | some sd =>
      rw [h1, h2] at h
      have hr := (Option.some.inj h).symm
      subst hr
      simp

theorem joinFn_isSome_mk (st : ScanState) (c : String)
    (h1 : (lookupAssoc c st.draft_data).isSome = true)
    (h2 : (lookupAssoc c st.stability_data).isSome = true) :
    ∃ r, joinFn st c = some r ∧ r.caseId = c := by
  obtain ⟨dd, hdd⟩ := Option.isSome_iff_exists.mp h1
  obtain ⟨sd, hsd⟩ := Option.isSome_iff_exists.mp h2
  refine ⟨⟨c, dd, sd.heel, sd.trim, sd.area_ratio_actual,
    sd.area_ratio_required, "Pass"⟩, ?_, rfl⟩
  simp [joinFn, hdd, hsd]

theorem map_caseId_filterMap (st : ScanState) (ks : List String) :
    (ks.filterMap (joinFn st)).map (fun r => r.caseId)
      = ks.filter (fun c => (joinFn st c).isSome) := by
  induction ks with
  | nil => rfl
  | cons c rest ih =>
    cases h : joinFn st c with
    | none => simp [List.filterMap_cons, List.filter_cons, h, ih]
    | some r =>
      have hc : r.caseId = c := (joinFn_eq_some st c r h).1
      simp [List.filterMap_cons, List.filter_cons, h, ih, hc]

theorem joinResults_pairwise (st : ScanState) :
    ((joinResults st).map (fun r => r.caseId)).Pairwise
      (fun a b => caseLE a b = true) := by
  rw [joinResults, map_caseId_filterMap]
  exact List.Pairwise.sublist (List.filter_sublist _) (sortCases_pairwise _)

theorem mem_joinResults (st : ScanState) (r : CaseRecord)
    (h : r ∈ joinResults st) :
    r.caseId ∈ st.stability_data.map Prod.fst ∧ r.remarks = "Pass"
      ∧ r.caseId ∈ st.draft_data.map Prod.fst := by
  rw [joinResults] at h
  obtain ⟨c, hc, hfc⟩ := List.mem_filterMap.mp h
  obtain ⟨hcase, hrem, hdd, hsd⟩ := joinFn_eq_some st c r hfc
  refine ⟨?_, hrem, ?_⟩
  · rw [hcase]
    exact ((sortCases_perm _).mem_iff).mp hc
  · rw [hcase]
    exact (lookupAssoc_isSome_iff c st.draft_data).mp hdd

theorem joinResults_mem_mk (st : ScanState) (k : String)
    (h1 : k ∈ st.stability_data.map Prod.fst)
    (h2 : k ∈ st.draft_data.map Prod.fst) :
    ∃ r, r ∈ joinResults st ∧ r.caseId = k := by
  have hs : (lookupAssoc k st.stability_data).isSome = true :=
    (lookupAssoc_isSome_iff k st.stability_data).mpr h1
  have hd : (lookupAssoc k st.draft_data).isSome = true :=
    (lookupAssoc_isSome_iff k st.draft_data).mpr h2
  obtain ⟨r, hr, hrc⟩ := joinFn_isSome_mk st k hd hs
  refine ⟨r, ?_, hrc⟩
  rw [joinResults]
  exact List.mem_filterMap.mpr ⟨k, ((sortCases_perm _).mem_iff).mpr h1, hr⟩

theorem joinResults_empty (st : ScanState) (h : st.stability_data = []) :
    joinResults st = [] := by
  rw [joinResults, h]
  rfl

/-! ### Case-id validity lemmas -/

theorem all_takeWhile (p : Char → Bool) (l : List Char) :
    (l.takeWhile p).all p = true := by
  induction l with
  | nil => rfl
  | cons c cs ih =>
    cases h : p c with
    | true => simp [List.takeWhile_cons, h, ih]
    | false => simp [List.takeWhile_cons, h]

theorem validCase_mk_digits (ds : List Char) (hne : ds.isEmpty = false)
    (hall : ds.all Char.isDigit = true) : ValidCase (String.mk ds) := by
  right
  constructor
  · intro h
    have h2 : ds = [] := by simpa using congrArg String.toList h
    rw [h2] at hne
    simp at hne
  · exact hall

theorem matchCase1At_valid (cs : List Char) (c : String)
    (h : matchCase1At cs = some c) : ValidCase c := by
  unfold matchCase1At at h
  repeat' split at h
  any_goals exact Option.noConfusion h
  cases Option.some.inj h
  refine validCase_mk_digits _ ?_ (all_takeWhile _ _)
  simp_all

theorem searchAux_some {α : Type} (m : List Char → Option α) (cs : List Char)
    (a : α) (h : searchAux m cs = some a) : ∃ cs₁, m cs₁ = some a := by
  induction cs with
  | nil => exact ⟨[], h⟩
  | cons c cs ih =>
    unfold searchAux at h
    cases hm : m (c :: cs) with
    | some b => rw [hm] at h; exact ⟨c :: cs, hm.trans h⟩
    | none => rw [hm] at h; exact ih h

theorem firstDigitRun_valid (cs : List Char) (c : String)
    (h : firstDigitRun cs = some c) : ValidCase c := by
  induction cs with
  | nil => exact absurd h (by simp [firstDigitRun])
  | cons x xs ih =>
    unfold firstDigitRun at h
    cases hx : x.isDigit with
    | true =>
      rw [hx] at h
      simp only [if_true] at h
      have hc := Option.some.inj h
      subst hc
      refine validCase_mk_digits _ (by simp) ?_
      simp [hx, all_takeWhile]
    | false =>
      rw [hx] at h
      simp only [Bool.false_eq_true, if_false] at h
      exact ih h

theorem headerMatch_valid (s : String) (c : String)
    (h : headerMatch s = some c) : ValidCase c := by
  unfold headerMatch at h
  split at h
  · obtain ⟨cs₁, hm⟩ := searchAux_some matchCase1At _ c h
    exact matchCase1At_valid cs₁ c hm
  · split at h
    · exact (Option.some.inj h) ▸ Or.inl rfl
    · split at h
      · exact (Option.some.inj h) ▸ Or.inl rfl
      · split at h
        · cases hd : searchDamage s with
          | none => rw [hd] at h; exact Option.noConfusion h
          | some d =>
            rw [hd] at h
            dsimp only at h
            cases hne : d != "NONE!" with
            | false => rw [hne] at h; exact Option.noConfusion h
            | true =>
              rw [hne] at h
              simp only [if_true] at h
              exact firstDigitRun_valid d.toList c h
        · exact Option.noConfusion h

theorem headerUpdate_valid (cc : Option String) (s : String) (c : String)
    (hcc : ∀ c₁, cc = some c₁ → ValidCase c₁)
    (h : headerUpdate cc s = some c) : ValidCase c := by
  unfold headerUpdate at h
  cases hm : headerMatch s with
  | some c₁ =>
    rw [hm] at h
    exact (Option.some.inj h) ▸ headerMatch_valid s c₁ hm
  | none =>
    rw [hm] at h
    exact hcc c h

theorem headerUpdate_of_not_recognized (cc : Option String) (s : String)
    (h : headerRecognizes s = false) : headerUpdate cc s = cc := by
  unfold headerRecognizes at h
  unfold headerUpdate
  cases hm : headerMatch s with
  | some c => rw [hm] at h; simp at h
  | none => rfl

/-! ### Phase lemmas and scan invariants -/

theorem draftPhase_fields (st st' : ScanState) (s : String)
    (h : draftPhase st s = some st') :
    st'.current_case = st.current_case
      ∧ st'.stability_data = st.stability_data := by
  unfold draftPhase at h
  split at h
  · cases ha : addDraftPairs st.temp_drafts (draftPairs s) with
    | none => rw [ha] at h; exact Option.noConfusion h
    | some td =>
      rw [ha] at h
      dsimp only at h
      cases Option.some.inj h
      exact ⟨rfl, rfl⟩
  · cases Option.some.inj h
    exact ⟨rfl, rfl⟩

theorem rollPhase_fields (st st' : ScanState) (s : String)
    (h : rollPhase st s = some st') :
    st'.current_case = st.current_case
      ∧ st'.stability_data = st.stability_data := by
  unfold rollPhase at h
  split at h
  · cases hv : searchRoll s with
    | none => rw [hv] at h; cases Option.some.inj h; exact ⟨rfl, rfl⟩
    | some v =>
      rw [hv] at h
      dsimp only at h
      cases hq : pyFloat? v with
      | none => rw [hq] at h; exact Option.noConfusion h
      | some q =>
        rw [hq] at h
        dsimp only at h
        cases Option.some.inj h
        exact ⟨rfl, rfl⟩
  · cases Option.some.inj h
    exact ⟨rfl, rfl⟩

theorem pitchPhase_fields (st st' : ScanState) (s : String)
    (h : pitchPhase st s = some st') :
    st'.current_case = st.current_case
      ∧ st'.stability_data = st.stability_data := by
  unfold pitchPhase at h
  split at h
  · cases hv : searchPitch s with
    | none => rw [hv] at h; cases Option.some.inj h; exact ⟨rfl, rfl⟩
    | some v =>
      rw [hv] at h
      dsimp only at h
      cases hq : pyFloat? v with
      | none => rw [hq] at h; exact Option.noConfusion h
      | some q =>
        rw [hq] at h
        dsimp only at h
        cases Option.some.inj h
        exact ⟨rfl, rfl⟩
  · cases Option.some.inj h
    exact ⟨rfl, rfl⟩

theorem areaPhase_fields (st st' : ScanState) (s : String)
    (h : areaPhase st s = some st') :
    st'.current_case = st.current_case
      ∧ (st'.stability_data = st.stability_data
        ∨ ∃ c e, st.current_case = some c
            ∧ st'.stability_data = updAssoc c e st.stability_data) := by
  unfold areaPhase at h
  split at h
  · cases hv : searchArea s with
    | none => rw [hv] at h; cases Option.some.inj h; exact ⟨rfl, Or.inl rfl⟩
    | some p =>
      obtain ⟨rv, av⟩ := p
      rw [hv] at h
      dsimp only at h
      cases hr : pyFloat? rv with
      | none => rw [hr] at h; exact Option.noConfusion h
      | some rq =>
        rw [hr] at h
        dsimp only at h
        cases ha : pyFloat? av with
        | none => rw [ha] at h; exact Option.noConfusion h
        | some aq =>
          rw [ha] at h
          dsimp only at h
          cases Option.some.inj h
          refine ⟨rfl, ?_⟩
          cases hcc : st.current_case with
          | none => left; simp [hcc]
          | some c =>
            cases hce : c == "" with
            | true => left; simp [hcc, hce]
            | false =>
              right
              exact ⟨c, ⟨st.temp_heel.getD 0, st.temp_trim.getD 0, aq, rq⟩,
                rfl, by simp [hcc, hce]⟩
  · cases Option.some.inj h
    exact ⟨rfl, Or.inl rfl⟩

/-- The reachability invariant of the scan: `current_case` and every key of
the stability table are valid case ids, and the keys are distinct. -/
def ScanInv (st : ScanState) : Prop :=
  (∀ c, st.current_case = some c → ValidCase c)
  ∧ (∀ k ∈ st.stability_data.map Prod.fst, ValidCase k)
  ∧ (st.stability_data.map Prod.fst).Nodup

theorem stepLine_inv (st st' : ScanState) (l : String)
    (h : stepLine st l = some st') (hinv : ScanInv st) : ScanInv st' := by
  unfold stepLine at h
  dsimp only at h
  have hinv₁ : ScanInv
      { st with current_case := headerUpdate st.current_case (pyStrip l) } :=
    ⟨fun c hc => headerUpdate_valid _ _ c hinv.1 hc, hinv.2.1, hinv.2.2⟩
  set s := pyStrip l
  set st₁ : ScanState :=
    { st with current_case := headerUpdate st.current_case s }
  split at h
  · cases Option.some.inj h
    exact hinv₁
  · cases hdp : draftPhase st₁ s with
    | none => rw [hdp] at h; exact Option.noConfusion h
    | some st₂ =>
      rw [hdp] at h
      dsimp only at h
      have hf₂ := draftPhase_fields st₁ st₂ s hdp
      have hinv₂ : ScanInv st₂ :=
        ⟨fun c hc => hinv₁.1 c (hf₂.1 ▸ hc),
          by rw [hf₂.2]; exact hinv₁.2.1,
          by rw [hf₂.2]; exact hinv₁.2.2⟩
      split at h
      · cases Option.some.inj h
        exact hinv₂
      · cases hrp : rollPhase st₂ s with
        | none => rw [hrp] at h; exact Option.noConfusion h
        | some st₃ =>
          rw [hrp] at h
          dsimp only at h
          have hf₃ := rollPhase_fields st₂ st₃ s hrp
          have hinv₃ : ScanInv st₃ :=
            ⟨fun c hc => hinv₂.1 c (hf₃.1 ▸ hc),
              by rw [hf₃.2]; exact hinv₂.2.1,
              by rw [hf₃.2]; exact hinv₂.2.2⟩
          cases hpp : pitchPhase st₃ s with
          | none => rw [hpp] at h; exact Option.noConfusion h
          | some st₄ =>
            rw [hpp] at h
            dsimp only at h
            have hf₄ := pitchPhase_fields st₃ st₄ s hpp
            have hinv₄ : ScanInv st₄ :=
              ⟨fun c hc => hinv₃.1 c (hf₄.1 ▸ hc),
                by rw [hf₄.2]; exact hinv₃.2.1,
                by rw [hf₄.2]; exact hinv₃.2.2⟩
            have hfa := areaPhase_fields st₄ st' s h
            refine ⟨fun c hc => hinv₄.1 c (hfa.1 ▸ hc), ?_, ?_⟩
            · rcases hfa.2 with heq | ⟨c, e, hcc, heq⟩
              · rw [heq]; exact hinv₄.2.1
              · rw [heq]
                intro k hk
                rcases (mem_map_fst_updAssoc c k e st₄.stability_data).mp hk
                  with h1 | h1
                · exact h1 ▸ hinv₄.1 c hcc
                · exact hinv₄.2.1 k h1
            · rcases hfa.2 with heq | ⟨c, e, hcc, heq⟩
              · rw [heq]; exact hinv₄.2.2
              · rw [heq]
                exact nodup_map_fst_updAssoc c e st₄.stability_data hinv₄.2.2

theorem runLines_inv (lines : List String) (st₀ st : ScanState)
    (h : runLines st₀ lines = some st) (hinv : ScanInv st₀) : ScanInv st := by
  induction lines generalizing st₀ with
  | nil =>
    cases Option.some.inj h
    exact hinv
  | cons l ls ih =>
    unfold runLines at h
    cases hs : stepLine st₀ l with
    | none => rw [hs] at h; exact Option.noConfusion h
    | some st₁ =>
      rw [hs] at h
      exact ih st₁ h (stepLine_inv st₀ st₁ l hs hinv)

theorem stepLine_no_header (st st' : ScanState) (l : String)
    (h : stepLine st l = some st')
    (hh : headerRecognizes (pyStrip l) = false)
    (hcc : st.current_case = none) (hsd : st.stability_data = []) :
    st'.current_case = none ∧ st'.stability_data = [] := by
  unfold stepLine at h
  dsimp only at h
  rw [headerUpdate_of_not_recognized st.current_case (pyStrip l) hh] at h
  set s := pyStrip l
  set st₁ : ScanState := { st with current_case := st.current_case }
  have h₁cc : st₁.current_case = none := hcc
  have h₁sd : st₁.stability_data = [] := hsd
  split at h
  · cases Option.some.inj h
    exact ⟨h₁cc, h₁sd⟩
  · cases hdp : draftPhase st₁ s with
    | none => rw [hdp] at h; exact Option.noConfusion h
    | some st₂ =>
      rw [hdp] at h
      dsimp only at h
      have hf₂ := draftPhase_fields st₁ st₂ s hdp
      split at h
      · cases Option.some.inj h
        exact ⟨hf₂.1.trans h₁cc, hf₂.2.trans h₁sd⟩
      · cases hrp : rollPhase st₂ s with
        | none => rw [hrp] at h; exact Option.noConfusion h
        | some st₃ =>
          rw [hrp] at h
          dsimp only at h
          have hf₃ := rollPhase_fields st₂ st₃ s hrp
          cases hpp : pitchPhase st₃ s with
          | none => rw [hpp] at h; exact Option.noConfusion h
          | some st₄ =>
            rw [hpp] at h
            dsimp only at h
            have hf₄ := pitchPhase_fields st₃ st₄ s hpp
            have hfa := areaPhase_fields st₄ st' s h
            have h₄cc : st₄.current_case = none :=
              hf₄.1.trans (hf₃.1.trans (hf₂.1.trans h₁cc))
            have h₄sd : st₄.stability_data = [] :=
              hf₄.2.trans (hf₃.2.trans (hf₂.2.trans h₁sd))
            refine ⟨hfa.1.trans h₄cc, ?_⟩
            rcases hfa.2 with heq | ⟨c, e, hc, heq⟩
            · exact heq.trans h₄sd
            · rw [h₄cc] at hc
              exact Option.noConfusion hc

theorem runLines_no_header (lines : List String) (st₀ st : ScanState)
    (h : runLines st₀ lines = some st)
    (hh : ∀ l ∈ lines, headerRecognizes (pyStrip l) = false)
    (hcc : st₀.current_case = none) (hsd : st₀.stability_data = []) :
    st.stability_data = [] := by
  induction lines generalizing st₀ with
  | nil =>
    cases Option.some.inj h
    exact hsd
  | cons l ls ih =>
    unfold runLines at h
    cases hs : stepLine st₀ l with
    | none => rw [hs] at h; exact Option.noConfusion h
    | some st₁ =>
      rw [hs] at h
      have hnh := stepLine_no_header st₀ st₁ l hs (hh l (by simp)) hcc hsd
      exact ih st₁ h (fun l₁ hl₁ => hh l₁ (by simp [hl₁])) hnh.1 hnh.2

/-! ### Concrete inputs used by the claim theorems -/

/-- A report text whose case headers arrive in the order `2`, `Intact`, `1`,
each with a complete draft-marks section and stability summary. -/
def sample2 : String :=
  "Damage = 2PO  VCG = 3.50 M\n" ++
  "+++ D R A F T   M A R K   R E A D I N G S +++\n" ++
  "AFT(P) 1.10 AFT(S) 1.20 FWD(P) 1.30 FWD(S) 1.40 MEAN(P) 1.15 MEAN(S) 1.30\n" ++
  "+++ S T A B I L I T Y   S U M M A R Y +++\n" ++
  "Roll = 0.50 Deg\n" ++
  "Pitch = 0.20 Deg\n" ++
  "Area Ratio >= 1.00 1.40 Passes\n" ++
  "INTACT TOW CONDITION\n" ++
  "+++ D R A F T   M A R K   R E A D I N G S +++\n" ++
  "AFT(P) 2.10 AFT(S) 2.20 FWD(P) 2.30 FWD(S) 2.40 MEAN(P) 2.15 MEAN(S) 2.30\n" ++
  "+++ S T A B I L I T Y   S U M M A R Y +++\n" ++
  "Roll = 0.10 Deg\n" ++
  "Pitch = 0.10 Deg\n" ++
  "Area Ratio >= 1.00 1.60 Passes\n" ++
  "Damage = 1SO  VCG = 3.20 M\n" ++
  "+++ D R A F T   M A R K   R E A D I N G S +++\n" ++
  "AFT(P) 3.10 AFT(S) 3.20 FWD(P) 3.30 FWD(S) 3.40 MEAN(P) 3.15 MEAN(S) 3.30\n" ++
  "+++ S T A B I L I T Y   S U M M A R Y +++\n" ++
  "Roll = 0.30 Deg\n" ++
  "Pitch = 0.40 Deg\n" ++
  "Area Ratio >= 1.00 1.50 Passes"

/-- The lines of `sample2`. -/
def sample2Lines : List String := splitLines sample2

/-- The scan state after scanning `sample2`. -/
def sample2State : ScanState :=
  (runLines ScanState.init sample2Lines).getD ScanState.init

/-- A filesystem with one empty (hence zero-record) input file. -/
def fsEmptyFile : String → Option (Option String) :=
  fun p => if p == "in.txt" then some (some "") else none

/-- A report whose draft data line carries the malformed numeric token
`..`, on which Python `float` raises `ValueError`. -/
def badContent : String :=
  "+++ D R A F T   M A R K   R E A D I N G S +++\n" ++ "AFT(P) .. AFT(S) 1.2"

/-- A filesystem holding one decodable file with content `badContent`. -/
def fsBadValue : String → Option (Option String) :=
  fun p => if p == "in.txt" then some (some badContent) else none

/-- The draft-marks data line of the specification example. -/
def c5line : String :=
  "AFT(P) 1.23 AFT(S) 2.34 FWD(P) 3.45 FWD(S) 4.56 MEAN(P) 1.78 MEAN(S) 3.50"

/-- A line holding an `AFT(P)` token but no `AFT(S)` token. -/
def c5partial : String := "AFT(P) 1.23 only"

/-- A header line whose damage designator `X2PO` has digits that are not
leading. -/
def c7line : String := "  Damage = X2PO  Condition VCG = 10.00 M  "

/-! ### Claim theorems -/

/-- Claim C1: the final output of `extract_moses_data` contains a record for
a case key if and only if the key is present in both the stability-data
table and the draft-data table built during the scan; a case present in only
one table produces no record, and every emitted record carries the fixed
remark `Pass`. -/
theorem moses_c1 (st : ScanState) (k : String) :
    (∀ content, extract_moses_data content
        = (runLines ScanState.init (splitLines content)).map joinResults)
    ∧ ((∃ r, r ∈ joinResults st ∧ r.caseId = k)
        ↔ (k ∈ st.stability_data.map Prod.fst
            ∧ k ∈ st.draft_data.map Prod.fst))
    ∧ (joinResults st).all (fun r => r.remarks == "Pass") = true := by
  refine ⟨fun _ => rfl, ⟨?_, ?_⟩, ?_⟩
  · rintro ⟨r, hr, hrc⟩
    have hm := mem_joinResults st r hr
    exact ⟨hrc ▸ hm.1, hrc ▸ hm.2.2⟩
  · rintro ⟨h1, h2⟩
    exact joinResults_mem_mk st k h1 h2
  · rw [List.all_eq_true]
    intro r hr
    have hm := (mem_joinResults st r hr).2.1
    simp [hm]

/-- Helper: the executable sort order implies the stated order: intact
sentinel first, remaining keys by ascending numeric value. -/
theorem caseLE_imp_order (a b : String) (h : caseLE a b = true) :
    a = "Intact" ∨ (b ≠ "Intact" ∧ pyIntKey a ≤ pyIntKey b) := by
  by_cases ha : a = "Intact"
  · exact Or.inl ha
  · right
    have ha' : (a != "Intact") = true := by simpa using ha
    unfold caseLE keyLE caseKey at h
    cases hb : b != "Intact" with
    | false =>
      rw [ha', hb] at h
      simp at h
    | true =>
      refine ⟨by simpa using hb, ?_⟩
      rw [ha', hb] at h
      simpa using h

/-- Claim C2: the record sequence is sorted with the intact sentinel first
and the remaining case ids in ascending numeric order; on a report whose
joined cases arrive in the order `2`, `Intact`, `1`, the output order is
`Intact`, `1`, `2`. -/
theorem moses_c2 :
    (∀ st : ScanState,
      ((joinResults st).map (fun r => r.caseId)).Pairwise
        (fun a b => a = "Intact" ∨ (b ≠ "Intact" ∧ pyIntKey a ≤ pyIntKey b)))
    ∧ (extract_moses_data sample2).map (fun l => l.map (fun r => r.caseId))
        = some ["Intact", "1", "2"] := by
  constructor
  · intro st
    exact (joinResults_pairwise st).imp (fun h => caseLE_imp_order _ _ h)
  · rfl

/-- Claim C8, first part stated over the header rules, second part over the
extractor: a line the header chain does not recognize leaves `current_case`
unchanged, and an input whose lines contain no recognized case header
extracts to the empty record list. -/
theorem moses_c8 :
    (∀ (cc : Option String) (s : String),
        headerRecognizes s = false → headerUpdate cc s = cc)
    ∧ (∀ (content : String) (res : List CaseRecord),
        (∀ l ∈ splitLines content, headerRecognizes (pyStrip l) = false) →
        extract_moses_data content = some res → res = []) := by
  refine ⟨fun cc s h => headerUpdate_of_not_recognized cc s h, ?_⟩
  intro content res hh hex
  unfold extract_moses_data at hex
  cases hr : runLines ScanState.init (splitLines content) with
  | none => rw [hr] at hex; exact Option.noConfusion hex
  | some st =>
    rw [hr] at hex
    have hsd : st.stability_data = [] :=
      runLines_no_header (splitLines content) ScanState.init st hr hh rfl rfl
    have hje : joinResults st = [] := joinResults_empty st hsd
    have hres := Option.some.inj hex
    rw [← hres, hje]

/-- Witness for C8 at a concrete headerless input. -/
theorem moses_c8_witness :
    headerUpdate (some "7") "hello" = some "7"
      ∧ ([] : List CaseRecord) = [] :=
  ⟨moses_c8.1 (some "7") "hello" (by rfl),
   moses_c8.2 "hello\nworld" [] (by decide) (by rfl)⟩

/-- Claim C9: extraction is deterministic (two runs on unchanged input are
identical) and re-sorting an already extracted and ordered case sequence is
the identity. -/
theorem moses_c9 :
    (∀ content, extract_moses_data content = extract_moses_data content)
    ∧ (∀ st : ScanState,
        sortCases ((joinResults st).map (fun r => r.caseId))
          = (joinResults st).map (fun r => r.caseId)) :=
  ⟨fun _ => rfl,
   fun st => sortCases_eq_of_pairwise _ (joinResults_pairwise st)⟩

/-- Claim C10: every emitted record has a case id that is the intact
sentinel or a non-empty digit string, and the emitted case ids are pairwise
distinct. -/
theorem moses_c10 (lines : List String) (st : ScanState)
    (h : runLines ScanState.init lines = some st) :
    (∀ r ∈ joinResults st, r.caseId = "Intact"
        ∨ (r.caseId ≠ "" ∧ r.caseId.toList.all Char.isDigit = true))
    ∧ ((joinResults st).map (fun r => r.caseId)).Nodup := by
  have hinv : ScanInv st := runLines_inv lines ScanState.init st h
    ⟨fun c hc => Option.noConfusion hc, by simp [ScanState.init],
      by simp [ScanState.init]⟩
  constructor
  · intro r hr
    exact hinv.2.1 r.caseId (mem_joinResults st r hr).1
  · rw [joinResults, map_caseId_filterMap]
    exact List.Nodup.filter _ (((sortCases_perm _).nodup_iff).mpr hinv.2.2)

/-- Witness for C10 at the `sample2` report. -/
theorem moses_c10_witness :
    ((joinResults sample2State).map (fun r => r.caseId)).Nodup :=
  (moses_c10 sample2Lines sample2State (by rfl)).2

/-- Counterexample to C3: a file that exists and decodes still makes the
extraction fail, with a `ValueError` raised from a malformed numeric token
in a draft data line, so missing-file and failed-decoding are not the only
extraction failures. -/
theorem moses_c3_counterexample :
    fsBadValue "in.txt" = some (some badContent)
      ∧ extract_from_path fsBadValue "in.txt" = .error .valueError
      ∧ ExtractError.valueError ≠ ExtractError.fileMissing
      ∧ ExtractError.valueError ≠ ExtractError.decodeFailed :=
  ⟨by rfl, by rfl, by decide, by decide⟩

/-- Claim C3 as amended: the read stage fails, aborting before any
extraction, exactly when the file is missing or its decoding fails; after a
successful decode the only remaining failure is a numeric-conversion error
raised during the scan. -/
theorem moses_c3_amended (fs : String → Option (Option String))
    (path : String) :
    ((extract_from_path fs path = .error .fileMissing
        ∨ extract_from_path fs path = .error .decodeFailed)
      ↔ (fs path = none ∨ fs path = some none))
    ∧ (∀ content, fs path = some (some content) →
        ∀ e, extract_from_path fs path = .error e → e = .valueError) := by
  constructor
  · constructor
    · intro h
      cases hf : fs path with
      | none => exact Or.inl rfl
      | some o =>
        cases o with
        | none => exact Or.inr rfl
        | some content =>
          exfalso
          unfold extract_from_path at h
          rw [hf] at h
          dsimp only at h
          cases hr : runLines ScanState.init (splitLines content) with
          | none =>
            rw [hr] at h
            rcases h with h | h <;>
              exact ExtractError.noConfusion (Except.error.inj h)
          | some st =>
            rw [hr] at h
            rcases h with h | h <;> exact Except.noConfusion h
    · intro h
      rcases h with h | h
      · left
        unfold extract_from_path
        rw [h]
      · right
        unfold extract_from_path
        rw [h]
  · intro content hc e he
    unfold extract_from_path at he
    rw [hc] at he
    dsimp only at he
    cases hr : runLines ScanState.init (splitLines content) with
    | none =>
      rw [hr] at he
      exact (Except.error.inj he).symm
    | some st =>
      rw [hr] at he
      exact Except.noConfusion he

/-- Witness for the amended C3 at a filesystem with no files. -/
theorem moses_c3_witness :
    extract_from_path (fun _ => none) "in.txt" = .error .fileMissing
      ∨ extract_from_path (fun _ => none) "in.txt" = .error .decodeFailed :=
  (moses_c3_amended (fun _ => none) "in.txt").1.mpr (Or.inl rfl)

/-- Counterexample to C4: an input that decodes to an empty report yields
zero records, yet the CLI writes the report and exits with status 0. -/
theorem moses_c4_counterexample :
    extract_from_path fsEmptyFile "in.txt" = .ok []
      ∧ mainCli fsEmptyFile ["prog", "in.txt"] = ⟨0, true⟩ :=
  ⟨by rfl, by rfl⟩

/-- Claim C4 as amended: whenever extraction returns (even with zero
records) the CLI writes the report and exits 0; it exits non-zero without a
report only when reading or extraction raises. -/
theorem moses_c4_amended (fs : String → Option (Option String))
    (argv : List String) (h2 : 2 ≤ argv.length) :
    (∀ data, extract_from_path fs (argv.getD 1 "") = .ok data →
        mainCli fs argv = ⟨0, true⟩)
    ∧ (∀ e, extract_from_path fs (argv.getD 1 "") = .error e →
        mainCli fs argv = ⟨1, false⟩) := by
  have hlt : ¬ argv.length < 2 := by omega
  constructor
  · intro data hd
    unfold mainCli
    rw [if_neg hlt, hd]
  · intro e he
    unfold mainCli
    rw [if_neg hlt, he]

/-- Witness for the amended C4 at the empty input file. -/
theorem moses_c4_witness :
    mainCli fsEmptyFile ["prog", "in.txt"] = ⟨0, true⟩ :=
  (moses_c4_amended fsEmptyFile ["prog", "in.txt"] (by decide)).1 [] (by rfl)

/-- Claim C5: inside an open draft-marks section, the line holding both the
`AFT(P)` and `AFT(S)` tokens is parsed; every `<label>(<P|S>) <decimal>`
pair except `MEAN(P)`/`MEAN(S)` is stored, for the specification line
exactly the four points `1.23, 2.34, 3.45, 4.56` with no MEAN entry, and
the section closes; a line with only one of the two tokens is not a data
line and leaves the section open and the accumulator untouched. -/
theorem moses_c5 :
    (∀ (sd : List (String × StabEntry))
        (dd : List (String × List (String × ℚ))) (h t : Option ℚ),
      stepLine ⟨sd, dd, some "1", false, true, h, t, []⟩ c5line
        = some ⟨sd,
            updAssoc "1" [("AFT(P)", 1.23), ("AFT(S)", 2.34),
              ("FWD(P)", 3.45), ("FWD(S)", 4.56)] dd,
            some "1", false, false, h, t,
            [("AFT(P)", 1.23), ("AFT(S)", 2.34), ("FWD(P)", 3.45),
              ("FWD(S)", 4.56)]⟩)
    ∧ (∀ (sd : List (String × StabEntry))
        (dd : List (String × List (String × ℚ))) (h t : Option ℚ)
        (td : List (String × ℚ)),
      stepLine ⟨sd, dd, some "1", false, true, h, t, td⟩ c5partial
        = some ⟨sd, dd, some "1", false, true, h, t, td⟩) := by
  constructor
  · intro sd dd h t
    rw [show (1.23 : ℚ) = (((1 : ℕ) : ℚ) + ((23 : ℕ) : ℚ) / ((10 : ℚ) ^ (2 : ℕ)))
          by norm_num,
        show (2.34 : ℚ) = (((2 : ℕ) : ℚ) + ((34 : ℕ) : ℚ) / ((10 : ℚ) ^ (2 : ℕ)))
          by norm_num,
        show (3.45 : ℚ) = (((3 : ℕ) : ℚ) + ((45 : ℕ) : ℚ) / ((10 : ℚ) ^ (2 : ℕ)))
          by norm_num,
        show (4.56 : ℚ) = (((4 : ℕ) : ℚ) + ((56 : ℕ) : ℚ) / ((10 : ℚ) ^ (2 : ℕ)))
          by norm_num]
    rfl
  · intro sd dd h t td
    rfl

/-- Claim C6: the stability-summary banner opens the section and resets the
heel/trim accumulators; inside it a `Roll ... Deg` line sets heel and a
`Pitch ... Deg` line sets trim; an area-ratio line with the pass indicator
stores a stability entry keyed by `current_case` carrying the required and
actual ratios and the accumulated heel/trim, or `0` for an accumulator
never observed, and closes the section. -/
theorem moses_c6 :
    (∀ (sd : List (String × StabEntry))
        (dd : List (String × List (String × ℚ))) (cc : Option String)
        (iss : Bool) (h t : Option ℚ) (td : List (String × ℚ)),
      stepLine ⟨sd, dd, cc, iss, false, h, t, td⟩ stabBannerStr
        = some ⟨sd, dd, cc, true, false, none, none, td⟩)
    ∧ (∀ (sd : List (String × StabEntry))
        (dd : List (String × List (String × ℚ))) (cc : Option String)
        (h t : Option ℚ) (td : List (String × ℚ)),
      stepLine ⟨sd, dd, cc, true, false, h, t, td⟩ "Roll = -0.75 Deg"
        = some ⟨sd, dd, cc, true, false, some (-0.75), t, td⟩)
    ∧ (∀ (sd : List (String × StabEntry))
        (dd : List (String × List (String × ℚ))) (cc : Option String)
        (h t : Option ℚ) (td : List (String × ℚ)),
      stepLine ⟨sd, dd, cc, true, false, h, t, td⟩ "Pitch = 0.20 Deg"
        = some ⟨sd, dd, cc, true, false, h, some 0.20, td⟩)
    ∧ (∀ (sd : List (String × StabEntry))
        (dd : List (String × List (String × ℚ))) (h t : Option ℚ)
        (td : List (String × ℚ)),
      stepLine ⟨sd, dd, some "2", true, false, h, t, td⟩
          "Area Ratio >= 1.00 1.40 Passes"
        = some ⟨updAssoc "2" ⟨h.getD 0, t.getD 0, 1.40, 1.00⟩ sd, dd,
            some "2", false, false, h, t, td⟩)
    ∧ (∀ (sd : List (String × StabEntry))
        (dd : List (String × List (String × ℚ))) (td : List (String × ℚ)),
      stepLine ⟨sd, dd, some "3", true, false, none, none, td⟩
          "Area Ratio >= 1.00 1.40 Passes"
        = some ⟨updAssoc "3" ⟨0, 0, 1.40, 1.00⟩ sd, dd,
            some "3", false, false, none, none, td⟩) := by
  refine ⟨fun sd dd cc iss h t td => rfl, ?_, ?_, ?_, ?_⟩
  · intro sd dd cc h t td
    rw [show (-0.75 : ℚ)
          = -(((0 : ℕ) : ℚ) + ((75 : ℕ) : ℚ) / ((10 : ℚ) ^ (2 : ℕ)))
        by norm_num]
    rfl
  · intro sd dd cc h t td
    rw [show (0.20 : ℚ) = (((0 : ℕ) : ℚ) + ((20 : ℕ) : ℚ) / ((10 : ℚ) ^ (2 : ℕ)))
          by norm_num]
    rfl
  · intro sd dd h t td
    rw [show (1.40 : ℚ) = (((1 : ℕ) : ℚ) + ((40 : ℕ) : ℚ) / ((10 : ℚ) ^ (2 : ℕ)))
          by norm_num,
        show (1.00 : ℚ) = (((1 : ℕ) : ℚ) + ((0 : ℕ) : ℚ) / ((10 : ℚ) ^ (2 : ℕ)))
          by norm_num]
    rfl
  · intro sd dd td
    rw [show (1.40 : ℚ) = (((1 : ℕ) : ℚ) + ((40 : ℕ) : ℚ) / ((10 : ℚ) ^ (2 : ℕ)))
          by norm_num,
        show (1.00 : ℚ) = (((1 : ℕ) : ℚ) + ((0 : ℕ) : ℚ) / ((10 : ℚ) ^ (2 : ℕ)))
          by norm_num]
    rfl

/-- Counterexample to C7: on a header line whose designator is `X2PO`, the
code sets `current_case` to `2`, the first digit run, although the
designator has no leading digits (and the previous case id was neither kept
nor set to the intact sentinel). -/
theorem moses_c7_counterexample :
    stepLine ⟨[], [], some "9", false, false, none, none, []⟩ c7line
      = some ⟨[], [], some "2", false, false, none, none, []⟩
    ∧ searchDamage (pyStrip c7line) = some "X2PO"
    ∧ specLeadingDigits "X2PO" = none
    ∧ (some "2" : Option String) ≠ some "9"
    ∧ ("2" : String) ≠ "Intact" :=
  ⟨by rfl, by rfl, by rfl, by decide, by decide⟩

/-- Claim C7 as amended: a header line with an explicit damage designator
and the VCG marker sets `current_case` to the first run of consecutive
digits anywhere in the designator; a designator without digits leaves
`current_case` unchanged, and a no-damage designator sets the intact
sentinel. -/
theorem moses_c7_amended :
    (∀ cc : Option String,
      headerUpdate cc "MXPOST Damage = 1PO   VCG = 9.00 M" = some "1")
    ∧ (∀ cc : Option String, headerUpdate cc (pyStrip c7line) = some "2")
    ∧ (∀ cc : Option String,
      headerUpdate cc "Damage = NONE!  KG VCG = 9.00 M" = some "Intact")
    ∧ (∀ cc : Option String,
      headerUpdate cc "Damage = XPO  VCG = 9.00 M" = cc) :=
  ⟨fun _ => rfl, fun _ => rfl, fun _ => rfl, fun _ => rfl⟩
